import Mathlib

/-! Connect Four board engine (`src/index.js`, class `Model`).

A shallow embedding of the `Model` class: the board array, the two flags the
class reads and writes, the gravity drop of `play`, the four scans of
`checkVictory`, `checkDraw` and `switchPlayer`.  Every operation returns the
value it returns in the source, the state it leaves behind and the
notifications it triggered, in order.
-/

namespace ConnectFour

/-- The two player marks, the strings `'🟡'` and `'🔴'` of the source. -/
inductive Mark where
  | yellow
  | red
  deriving DecidableEq, Repr

/-- A cell of the board array: `none` is `undefined` (falsy), `some m` is a
mark (a non-empty string, truthy). -/
abbrev Cell := Option Mark

/-- What the four `Event` objects of the model deliver to their listeners:
`updateEvent.trigger(board)`, `switchPlayerEvent.trigger(currentPlayer)`,
`victoryEvent.trigger(currentPlayer)` and `drawEvent.trigger()`. -/
inductive Notification where
  | update (board : List Cell)
  | switchPlayer (player : Mark)
  | victory (winner : Mark)
  | draw
  deriving DecidableEq, Repr

/-- The fields of a `Model` object.  `width` and `height` are the numbers of
columns and rows, `board` the dense array of cells, `finishedGame` the flag
that `play` sets when the game ends. -/
structure Model where
  width : Nat
  height : Nat
  board : List Cell
  finishedGame : Bool
  currentPlayer : Mark
  deriving DecidableEq, Repr

/-- The result of running a method: returned value, state afterwards and the
notifications triggered, oldest first. -/
structure Outcome (α : Type) where
  value : α
  state : Model
  events : List Notification

namespace Model

/-- `constructor(_width, _height)`: `Array(_height * _width).fill()`,
`finishedGame = false`, `currentPlayer = '🟡'`. -/
def constructor (_width _height : Nat) : Model :=
  { width := _width
    height := _height
    board := List.replicate (_height * _width) none
    finishedGame := false
    currentPlayer := Mark.yellow }

/-- The value of `this.finished`, as a truth value.  The constructor defines
`finishedGame` and no method of the class ever defines a property named
`finished`, so the read yields `undefined`, which is falsy. -/
def finished (_s : Model) : Bool := false

/-- The array read `this.board[i]` for an integer `i`: `undefined` outside the
array. -/
def cell (s : Model) (i : Int) : Cell :=
  if i < 0 then none else s.board.getD i.toNat none

/-- The private method `#checkFour(a, b, c, d)`; its `undefined` result is
`false`. -/
def checkFour (s : Model) (a b c d : Int) : Bool :=
  (s.cell a).isSome && (s.cell a == s.cell b) && (s.cell b == s.cell c) &&
    (s.cell c == s.cell d)

/-- First loop nest of `check`: `j < height`, `i < width - 3`. -/
def horizontalCheck (s : Model) : Bool :=
  (List.range s.height).any fun j =>
    (List.range (s.width - 3)).any fun i =>
      s.checkFour ((j : Int) * s.width + i) ((j : Int) * s.width + i + 1)
        ((j : Int) * s.width + i + 2) ((j : Int) * s.width + i + 3)

/-- Second loop nest of `check`: `i < width`, `j < height - 3`. -/
def verticalCheck (s : Model) : Bool :=
  (List.range s.width).any fun i =>
    (List.range (s.height - 3)).any fun j =>
      s.checkFour ((j : Int) * s.width + i) (((j : Int) + 1) * s.width + i)
        (((j : Int) + 2) * s.width + i) (((j : Int) + 3) * s.width + i)

/-- Third loop nest of `check`: `j < height - 3`, `i < width - 3`. -/
def ascendingDiagonalCheck (s : Model) : Bool :=
  (List.range (s.height - 3)).any fun j =>
    (List.range (s.width - 3)).any fun i =>
      s.checkFour ((j : Int) * s.width + i) (((j : Int) + 1) * s.width + i + 1)
        (((j : Int) + 2) * s.width + i + 2) (((j : Int) + 3) * s.width + i + 3)

/-- Fourth loop nest of `check`: `j < height - 3`, `3 ≤ i < width`. -/
def descendingDiagonalCheck (s : Model) : Bool :=
  (List.range (s.height - 3)).any fun j =>
    (List.range' 3 (s.width - 3)).any fun i =>
      s.checkFour ((j : Int) * s.width + i) (((j : Int) + 1) * s.width + i - 1)
        (((j : Int) + 2) * s.width + i - 2) (((j : Int) + 3) * s.width + i - 3)

/-- The closure `check` of `checkVictory`: the four scans in source order, the
first hit returning `true`; falling off the end (`undefined`) is `false`. -/
def check (s : Model) : Bool :=
  s.horizontalCheck || s.verticalCheck || s.ascendingDiagonalCheck ||
    s.descendingDiagonalCheck

/-- `checkVictory()`: triggers `victoryEvent` with `currentPlayer` when
`check()` holds, then returns `check()`. -/
def checkVictory (s : Model) : Outcome Bool :=
  { value := s.check
    state := s
    events := if s.check then [Notification.victory s.currentPlayer] else [] }

/-- `checkDraw()`: `this.board.every((i) => i)`, triggering `drawEvent` when
it holds. -/
def checkDraw (s : Model) : Outcome Bool :=
  { value := s.board.all fun i => i.isSome
    state := s
    events := if (s.board.all fun i => i.isSome) then [Notification.draw] else [] }

/-- `switchPlayer()`. -/
def switchPlayer (s : Model) : Outcome Unit :=
  { value := ()
    state :=
      if s.currentPlayer = Mark.yellow then { s with currentPlayer := Mark.red }
      else { s with currentPlayer := Mark.yellow }
    events := [] }

/-- The `while` loop of `play`, run for at most `fuel` iterations:
`while (move <= width * (height - 1) - 1 && !board[move + width]) move += width`.
-/
def dropLoop (s : Model) : Nat → Int → Int
  | 0, move => move
  | fuel + 1, move =>
    if move ≤ (s.width : Int) * ((s.height : Int) - 1) - 1 ∧
        (s.cell (move + s.width)).isSome = false then
      dropLoop s fuel (move + s.width)
    else move

/-- The index `play` writes to when it accepts `move`.  The loop is entered
with `0 ≤ move`, and each iteration needs `move ≤ width * (height - 1) - 1`
and adds `width`, so `height` iterations are enough (`dropLoop_stable`). -/
def landing (s : Model) (move : Int) : Int :=
  s.dropLoop s.height move

/-- The guard of `play`: `finished || move < 0 || move > height * width - 1 ||
board[move]`. -/
def rejects (s : Model) (move : Int) : Bool :=
  s.finished || decide (move < 0) ||
    decide (move > (s.height : Int) * (s.width : Int) - 1) || (s.cell move).isSome

/-- The condition `this.checkVictory() || this.checkDraw()` of `play`:
`checkDraw` runs only when `checkVictory` returned a falsy value. -/
def gameOver (s : Model) : Outcome Bool :=
  if s.checkVictory.value then s.checkVictory
  else
    { value := s.checkVictory.state.checkDraw.value
      state := s.checkVictory.state.checkDraw.state
      events := s.checkVictory.events ++ s.checkVictory.state.checkDraw.events }

/-- The part of `play` after `this.board[move] = this.currentPlayer` and the
update notification: the assignment `finishedGame = true` when `gameOver`
holds, then, if `finishedGame` is not set, `switchPlayer()` and the
turn-switch notification; returns `true`. -/
def settle (s : Model) : Outcome Bool :=
  let s2 : Model :=
    if s.gameOver.value then { s.gameOver.state with finishedGame := true }
    else s.gameOver.state
  if s2.finishedGame then
    { value := true, state := s2, events := s.gameOver.events }
  else
    { value := true
      state := s2.switchPlayer.state
      events := s.gameOver.events ++ s2.switchPlayer.events ++
        [Notification.switchPlayer s2.switchPlayer.state.currentPlayer] }

/-- The state of `play` right after `this.board[move] = this.currentPlayer`,
`move` having been advanced by the loop.  The index written is below
`width * height` (`landing_lt`), so on an array of `width * height` cells, the
only kind the constructor and `play` produce (`play_sized`), the write replaces
a cell.  On a shorter array JavaScript would lengthen the array; the class
never holds one, and there the model leaves the list as it is. -/
def place (s : Model) (move : Int) : Model :=
  { s with board := s.board.set (s.landing move).toNat (some s.currentPlayer) }

/-- `play(move)` for an integer `move`. -/
def play (s : Model) (move : Int) : Outcome Bool :=
  if s.rejects move then
    { value := false, state := s, events := [] }
  else
    { value := (s.place move).settle.value
      state := (s.place move).settle.state
      events := Notification.update (s.place move).board :: (s.place move).settle.events }

/-- The state after a sequence of `play` calls. -/
def playAll (s : Model) : List Int → Model
  | [] => s
  | move :: rest => playAll (s.play move).state rest

end Model

/-- The states a game can be in: a fresh model, and whatever `play` leaves
behind, accepted or not. -/
inductive Reachable : Model → Prop where
  | fresh (w h : Nat) : Reachable (Model.constructor w h)
  | step (s : Model) (move : Int) : Reachable s → Reachable (s.play move).state

/-- Whether a notification is a board update. -/
def Notification.isUpdate : Notification → Bool
  | Notification.update _ => true
  | _ => false

/-- Whether a notification is a turn switch. -/
def Notification.isSwitch : Notification → Bool
  | Notification.switchPlayer _ => true
  | _ => false

/-- Whether a notification is a victory. -/
def Notification.isVictory : Notification → Bool
  | Notification.victory _ => true
  | _ => false

/-- The mark that is not `m`. -/
def Mark.other : Mark → Mark
  | Mark.yellow => Mark.red
  | Mark.red => Mark.yellow

/-- The cell in row `r` and column `c` of the grid, at index `r * width + c`. -/
def Model.cellAt (s : Model) (r c : Int) : Cell :=
  s.cell (r * s.width + c)

/-- Row `r` and column `c` lie inside the grid. -/
def Model.InGrid (s : Model) (r c : Int) : Prop :=
  0 ≤ r ∧ r < s.height ∧ 0 ≤ c ∧ c < s.width

/-- The four directions of a line: horizontal, vertical and the two
diagonals, as (row step, column step). -/
def Direction (dr dc : Int) : Prop :=
  (dr = 0 ∧ dc = 1) ∨ (dr = 1 ∧ dc = 0) ∨ (dr = 1 ∧ dc = 1) ∨ (dr = 1 ∧ dc = -1)

/-- Mark `m` has a four-in-a-row: four cells `(r, c) + k * (dr, dc)`,
`k = 0, 1, 2, 3`, in one of the four directions, all inside the grid and all
holding `m`. -/
def Model.FourOf (s : Model) (m : Mark) : Prop :=
  ∃ r c dr dc : Int, Direction dr dc ∧
    ∀ k : Int, 0 ≤ k → k ≤ 3 →
      s.InGrid (r + k * dr) (c + k * dc) ∧ s.cellAt (r + k * dr) (c + k * dc) = some m

/-- The board contains a four-in-a-row of some mark. -/
def Model.FourInRow (s : Model) : Prop :=
  ∃ m : Mark, s.FourOf m

/-- Every cell of the board is occupied. -/
def Model.Full (s : Model) : Prop :=
  ∀ x ∈ s.board, x.isSome = true

/-- The board has `width * height` cells, as the constructor makes it. -/
def Model.Sized (s : Model) : Prop :=
  s.board.length = s.width * s.height

instance (s : Model) : Decidable s.Full :=
  inferInstanceAs (Decidable (∀ x ∈ s.board, x.isSome = true))

instance (s : Model) : Decidable s.Sized :=
  inferInstanceAs (Decidable (s.board.length = s.width * s.height))

/-- Gravity has been respected: an occupied cell above the bottom row has an
occupied cell directly beneath it. -/
def Model.Stacked (s : Model) : Prop :=
  ∀ i : Int, 0 ≤ i → i < (s.width : Int) * ((s.height : Int) - 1) →
    (s.cell i).isSome = true → (s.cell (i + s.width)).isSome = true

/-! ## Example games -/

/-- A 7 by 7 game one move before `wonGame`: the moves 0, 0, 1, 1, 2, 2 from a
fresh model, 🟡 to move with cells 42, 43, 44 of the bottom row. -/
def threeInRowGame : Model :=
  (Model.constructor 7 7).playAll [0, 0, 1, 1, 2, 2]

/-- A 7 by 1 game with one empty cell left: the moves 0, 4, 1, 5, 2, 6 from a
fresh model leave 🟡 on cells 0 to 2, 🔴 on cells 4 to 6 and cell 3 empty, 🟡 to
move. -/
def lastCellGame : Model :=
  (Model.constructor 7 1).playAll [0, 4, 1, 5, 2, 6]

/-- The game `lastCellGame` after 🟡 has played cell 3, a move that both
completes a four-in-a-row and fills the board. -/
def fullWonGame : Model :=
  (lastCellGame.play 3).state

/-- A 7 by 7 game with two marks in column 3: the moves 3, 3 from a fresh
model. -/
def twoInColumnGame : Model :=
  (Model.constructor 7 7).playAll [3, 3]

/-- A 7 by 7 game in which 🟡 has just completed the bottom row cells of
columns 0 to 3: the moves 0, 0, 1, 1, 2, 2, 3 from a fresh model. -/
def wonGame : Model :=
  (Model.constructor 7 7).playAll [0, 0, 1, 1, 2, 2, 3]

/-- A 2 by 2 game with column 0 full: the moves 0, 0 from a fresh model. -/
def fullColumnGame : Model :=
  (Model.constructor 2 2).playAll [0, 0]

/-- A 2 by 2 game with one empty cell left, too small for a four-in-a-row:
the moves 0, 0, 1 from a fresh model, 🔴 to move with cell 1 empty. -/
def oneCellLeftGame : Model :=
  (Model.constructor 2 2).playAll [0, 0, 1]

/-- The number of cells of the board that hold mark `m`. -/
def Model.marks (s : Model) (m : Mark) : Nat :=
  s.board.count (some m)

/-! ## The guard of `play` -/

theorem rejects_eq_false_iff (s : Model) (move : Int) :
    s.rejects move = false ↔
      0 ≤ move ∧ move ≤ (s.height : Int) * s.width - 1 ∧ s.cell move = none := by
  unfold Model.rejects Model.finished
  cases hc : s.cell move <;>
    simp only [Bool.false_or, Bool.or_eq_false_iff, decide_eq_false_iff_not, not_lt,
      Option.isSome_none, Option.isSome_some, gt_iff_lt, and_true, and_false, true_and,
      reduceCtorEq]

theorem play_of_rejects (s : Model) (move : Int) (h : s.rejects move = true) :
    s.play move = { value := false, state := s, events := [] } := by
  simp [Model.play, h]

theorem play_of_accepts (s : Model) (move : Int) (h : s.rejects move = false) :
    s.play move =
      { value := (s.place move).settle.value
        state := (s.place move).settle.state
        events := Notification.update (s.place move).board :: (s.place move).settle.events } := by
  simp [Model.play, h]

theorem settle_value (s : Model) : s.settle.value = true := by
  unfold Model.settle
  by_cases h : (if s.gameOver.value = true then
      { s.gameOver.state with finishedGame := true } else s.gameOver.state).finishedGame = true
  · simp only [h, if_true]
  · simp only [h, if_false]
    rfl

theorem play_value_eq_true_iff (s : Model) (move : Int) :
    (s.play move).value = true ↔ s.rejects move = false := by
  cases h : s.rejects move
  · simp [play_of_accepts s move h, settle_value]
  · simp [play_of_rejects s move h]

/-! ## Reading and writing cells -/

theorem cell_of_neg (s : Model) (i : Int) (h : i < 0) : s.cell i = none := by
  simp [Model.cell, h]

theorem cell_of_length_le (s : Model) (i : Int) (h : (s.board.length : Int) ≤ i) :
    s.cell i = none := by
  unfold Model.cell
  have h0 : ¬ i < 0 := by omega
  rw [if_neg h0, List.getD_eq_getElem?_getD, List.getElem?_eq_none (by omega)]
  rfl

theorem cell_natCast (s : Model) (n : Nat) : s.cell (n : Int) = (s.board[n]?).getD none := by
  unfold Model.cell
  have h0 : ¬ ((n : Int) < 0) := by omega
  rw [if_neg h0, List.getD_eq_getElem?_getD, Int.toNat_ofNat]

theorem cell_set (s : Model) (n : Nat) (v : Cell) (i : Int) (hn : n < s.board.length) :
    ({ s with board := s.board.set n v } : Model).cell i = if i = n then v else s.cell i := by
  by_cases hi : i < 0
  · have hne : i ≠ (n : Int) := by omega
    rw [if_neg hne, cell_of_neg _ _ hi, cell_of_neg _ _ hi]
  · obtain ⟨k, rfl⟩ := Int.eq_ofNat_of_zero_le (not_lt.mp hi)
    rw [cell_natCast, cell_natCast]
    simp only [List.getElem?_set, Nat.cast_inj]
    by_cases hk : n = k
    · subst hk
      simp [hn]
    · have hk2 : ¬ k = n := fun h => hk h.symm
      simp [hk, hk2]

theorem cell_isSome_lt_length (s : Model) (i : Int) (h : (s.cell i).isSome = true) :
    0 ≤ i ∧ i < s.board.length := by
  constructor
  · by_contra hneg
    rw [cell_of_neg s i (by omega)] at h
    simp at h
  · by_contra hge
    rw [cell_of_length_le s i (by omega)] at h
    simp at h

/-! ## The gravity loop -/

/-- What the loop computes with `fuel` iterations allowed: it adds `width` some
`k ≤ fuel` times, every cell it steps onto is empty and inside the board, and
if it stopped before the fuel ran out the loop condition is false. -/
theorem dropLoop_spec (s : Model) (fuel : Nat) (move : Int) :
    ∃ k : Nat, k ≤ fuel ∧ s.dropLoop fuel move = move + k * s.width ∧
      (∀ j : Nat, 1 ≤ j → j ≤ k →
        s.cell (move + j * s.width) = none ∧
          move + j * s.width ≤ (s.width : Int) * s.height - 1) ∧
      (k < fuel →
        ¬ (move + k * s.width ≤ (s.width : Int) * ((s.height : Int) - 1) - 1 ∧
          (s.cell (move + k * s.width + s.width)).isSome = false)) := by
  induction fuel generalizing move with
  | zero =>
    refine ⟨0, le_refl _, by simp [Model.dropLoop], ?_, ?_⟩
    · intro j h1 h2
      omega
    · intro h
      omega
  | succ fuel ih =>
    by_cases hc : move ≤ (s.width : Int) * ((s.height : Int) - 1) - 1 ∧
        (s.cell (move + s.width)).isSome = false
    · obtain ⟨k, hk, hEq, hCells, hExit⟩ := ih (move + s.width)
      refine ⟨k + 1, by omega, ?_, ?_, ?_⟩
      · rw [Model.dropLoop, if_pos hc, hEq]
        push_cast
        ring
      · intro j h1 h2
        by_cases hj : j = 1
        · subst hj
          refine ⟨?_, ?_⟩
          · have := hc.2
            rw [Nat.cast_one, one_mul]
            cases hcell : s.cell (move + s.width) with
            | none => rfl
            | some m => rw [hcell] at this; simp at this
          · have := hc.1
            rw [Nat.cast_one, one_mul]
            linarith [mul_sub (s.width : Int) s.height 1]
        · obtain ⟨j0, rfl⟩ : ∃ j0, j = j0 + 1 := ⟨j - 1, by omega⟩
          have := hCells j0 (by omega) (by omega)
          have e : move + ((j0 + 1 : Nat) : Int) * s.width = move + s.width + j0 * s.width := by
            push_cast
            ring
          rw [e]
          exact this
      · intro hlt
        have := hExit (by omega)
        have e : move + ((k + 1 : Nat) : Int) * s.width = move + s.width + k * s.width := by
          push_cast
          ring
        rw [e]
        exact this
    · refine ⟨0, by omega, ?_, ?_, ?_⟩
      · rw [Model.dropLoop, if_neg hc]
        simp
      · intro j h1 h2
        omega
      · intro _
        simpa using hc

/-- Once the loop condition is false, more iterations change nothing. -/
theorem dropLoop_of_stopped (s : Model) (fuel : Nat) (move : Int)
    (h : ¬ (move ≤ (s.width : Int) * ((s.height : Int) - 1) - 1 ∧
      (s.cell (move + s.width)).isSome = false)) :
    s.dropLoop fuel move = move := by
  cases fuel with
  | zero => rfl
  | succ fuel => rw [Model.dropLoop, if_neg h]

theorem dropLoop_add (s : Model) (f g : Nat) (move : Int) :
    s.dropLoop (f + g) move = s.dropLoop g (s.dropLoop f move) := by
  induction f generalizing move with
  | zero => simp [Model.dropLoop]
  | succ f ih =>
    by_cases hc : move ≤ (s.width : Int) * ((s.height : Int) - 1) - 1 ∧
        (s.cell (move + s.width)).isSome = false
    · rw [show f + 1 + g = (f + g) + 1 by omega, Model.dropLoop, if_pos hc, ih,
        Model.dropLoop, if_pos hc]
    · rw [show f + 1 + g = (f + g) + 1 by omega, Model.dropLoop, if_neg hc,
        Model.dropLoop, if_neg hc, dropLoop_of_stopped s g move hc]

/-- The loop has stopped by itself at `landing`: the index is in the bottom
row or the cell beneath it is occupied. -/
theorem landing_stopped (s : Model) (move : Int) (h0 : 0 ≤ move) :
    ¬ (s.landing move ≤ (s.width : Int) * ((s.height : Int) - 1) - 1 ∧
      (s.cell (s.landing move + s.width)).isSome = false) := by
  obtain ⟨k, hk, hEq, hCells, hExit⟩ := dropLoop_spec s s.height move
  unfold Model.landing
  rw [hEq]
  by_cases hlt : k < s.height
  · exact hExit hlt
  · have hk2 : k = s.height := by omega
    intro hcon
    have h1 := hcon.1
    have hw : (0 : Int) ≤ s.width := Int.natCast_nonneg _
    rw [hk2] at h1
    nlinarith [mul_sub (s.width : Int) s.height 1, mul_comm (s.width : Int) s.height]

/-- The fuel `height` is enough: with any larger fuel the loop gives the same
index. -/
theorem dropLoop_stable (s : Model) (move : Int) (h0 : 0 ≤ move) (fuel : Nat)
    (hf : s.height ≤ fuel) : s.dropLoop fuel move = s.landing move := by
  obtain ⟨g, rfl⟩ : ∃ g, fuel = s.height + g := ⟨fuel - s.height, by omega⟩
  rw [dropLoop_add]
  exact dropLoop_of_stopped s g _ (landing_stopped s move h0)

/-! ## Win detection -/

theorem checkFour_iff (s : Model) (a b c d : Int) :
    s.checkFour a b c d = true ↔
      ∃ m : Mark, s.cell a = some m ∧ s.cell b = some m ∧ s.cell c = some m ∧
        s.cell d = some m := by
  unfold Model.checkFour
  constructor
  · intro h
    simp only [Bool.and_eq_true, beq_iff_eq] at h
    obtain ⟨⟨⟨h1, h2⟩, h3⟩, h4⟩ := h
    obtain ⟨m, hm⟩ := Option.isSome_iff_exists.mp h1
    exact ⟨m, hm, by rw [← h2, hm], by rw [← h3, ← h2, hm], by rw [← h4, ← h3, ← h2, hm]⟩
  · rintro ⟨m, h1, h2, h3, h4⟩
    simp [h1, h2, h3, h4]

/-- The four scans of `check` find a line exactly when some mark has a
four-in-a-row inside the grid. -/
theorem check_iff_fourInRow (s : Model) : s.check = true ↔ s.FourInRow := by
  unfold Model.check Model.FourInRow Model.FourOf
  simp only [Bool.or_eq_true]
  constructor
  · rintro (((h | h) | h) | h)
    · simp only [Model.horizontalCheck, List.any_eq_true, List.mem_range] at h
      obtain ⟨j, hj, i, hi, h4⟩ := h
      obtain ⟨m, h0, h1, h2, h3⟩ := (checkFour_iff _ _ _ _ _).mp h4
      refine ⟨m, j, i, 0, 1, Or.inl ⟨rfl, rfl⟩, ?_⟩
      intro k hk0 hk3
      refine ⟨⟨by omega, by omega, by omega, by omega⟩, ?_⟩
      unfold Model.cellAt
      interval_cases k
      · convert h0 using 2
      · convert h1 using 2
      · convert h2 using 2
      · convert h3 using 2
    · simp only [Model.verticalCheck, List.any_eq_true, List.mem_range] at h
      obtain ⟨i, hi, j, hj, h4⟩ := h
      obtain ⟨m, h0, h1, h2, h3⟩ := (checkFour_iff _ _ _ _ _).mp h4
      refine ⟨m, j, i, 1, 0, Or.inr (Or.inl ⟨rfl, rfl⟩), ?_⟩
      intro k hk0 hk3
      refine ⟨⟨by omega, by omega, by omega, by omega⟩, ?_⟩
      unfold Model.cellAt
      interval_cases k
      · convert h0 using 2
      · convert h1 using 2
      · convert h2 using 2
      · convert h3 using 2
    · simp only [Model.ascendingDiagonalCheck, List.any_eq_true, List.mem_range] at h
      obtain ⟨j, hj, i, hi, h4⟩ := h
      obtain ⟨m, h0, h1, h2, h3⟩ := (checkFour_iff _ _ _ _ _).mp h4
      refine ⟨m, j, i, 1, 1, Or.inr (Or.inr (Or.inl ⟨rfl, rfl⟩)), ?_⟩
      intro k hk0 hk3
      refine ⟨⟨by omega, by omega, by omega, by omega⟩, ?_⟩
      unfold Model.cellAt
      interval_cases k
      · convert h0 using 2
      · convert h1 using 2
      · convert h2 using 2
      · convert h3 using 2
    · simp only [Model.descendingDiagonalCheck, List.any_eq_true, List.mem_range,
        List.mem_range'_1] at h
      obtain ⟨j, hj, i, hi, h4⟩ := h
      obtain ⟨m, h0, h1, h2, h3⟩ := (checkFour_iff _ _ _ _ _).mp h4
      refine ⟨m, j, i, 1, -1, Or.inr (Or.inr (Or.inr ⟨rfl, rfl⟩)), ?_⟩
      intro k hk0 hk3
      refine ⟨⟨by omega, by omega, by omega, by omega⟩, ?_⟩
      unfold Model.cellAt
      interval_cases k
      · convert h0 using 2
      · convert h1 using 2; ring
      · convert h2 using 2; ring
      · convert h3 using 2; ring
  · rintro ⟨m, r, c, dr, dc, hdir, hline⟩
    obtain ⟨g0, e0⟩ := hline 0 (by omega) (by omega)
    obtain ⟨g1, e1⟩ := hline 1 (by omega) (by omega)
    obtain ⟨g2, e2⟩ := hline 2 (by omega) (by omega)
    obtain ⟨g3, e3⟩ := hline 3 (by omega) (by omega)
    unfold Model.InGrid at g0 g1 g2 g3
    unfold Model.cellAt at e0 e1 e2 e3
    rcases hdir with ⟨rfl, rfl⟩ | ⟨rfl, rfl⟩ | ⟨rfl, rfl⟩ | ⟨rfl, rfl⟩
    · obtain ⟨j, rfl⟩ := Int.eq_ofNat_of_zero_le (show 0 ≤ r by omega)
      obtain ⟨i, rfl⟩ := Int.eq_ofNat_of_zero_le (show 0 ≤ c by omega)
      refine Or.inl (Or.inl (Or.inl ?_))
      simp only [Model.horizontalCheck, List.any_eq_true, List.mem_range]
      refine ⟨j, by omega, i, by omega, (checkFour_iff _ _ _ _ _).mpr ⟨m, ?_, ?_, ?_, ?_⟩⟩
      · convert e0 using 2
      · convert e1 using 2
      · convert e2 using 2
      · convert e3 using 2
    · obtain ⟨j, rfl⟩ := Int.eq_ofNat_of_zero_le (show 0 ≤ r by omega)
      obtain ⟨i, rfl⟩ := Int.eq_ofNat_of_zero_le (show 0 ≤ c by omega)
      refine Or.inl (Or.inl (Or.inr ?_))
      simp only [Model.verticalCheck, List.any_eq_true, List.mem_range]
      refine ⟨i, by omega, j, by omega, (checkFour_iff _ _ _ _ _).mpr ⟨m, ?_, ?_, ?_, ?_⟩⟩
      · convert e0 using 2
      · convert e1 using 2
      · convert e2 using 2
      · convert e3 using 2
    · obtain ⟨j, rfl⟩ := Int.eq_ofNat_of_zero_le (show 0 ≤ r by omega)
      obtain ⟨i, rfl⟩ := Int.eq_ofNat_of_zero_le (show 0 ≤ c by omega)
      refine Or.inl (Or.inr ?_)
      simp only [Model.ascendingDiagonalCheck, List.any_eq_true, List.mem_range]
      refine ⟨j, by omega, i, by omega, (checkFour_iff _ _ _ _ _).mpr ⟨m, ?_, ?_, ?_, ?_⟩⟩
      · convert e0 using 2
      · convert e1 using 2
      · convert e2 using 2
      · convert e3 using 2
    · obtain ⟨j, rfl⟩ := Int.eq_ofNat_of_zero_le (show 0 ≤ r by omega)
      obtain ⟨i, rfl⟩ := Int.eq_ofNat_of_zero_le (show 0 ≤ c by omega)
      refine Or.inr ?_
      simp only [Model.descendingDiagonalCheck, List.any_eq_true, List.mem_range,
        List.mem_range'_1]
      refine ⟨j, by omega, i, by omega, (checkFour_iff _ _ _ _ _).mpr ⟨m, ?_, ?_, ?_, ?_⟩⟩
      · convert e0 using 2
      · convert e1 using 2; ring
      · convert e2 using 2; ring
      · convert e3 using 2; ring

/-! ## The end of a move -/

theorem all_isSome_iff_full (s : Model) :
    (s.board.all fun i => i.isSome) = true ↔ s.Full := by
  simp [Model.Full, List.all_eq_true]

theorem settle_of_check (s : Model) (h : s.check = true) :
    s.settle.state = { s with finishedGame := true } ∧
      s.settle.events = [Notification.victory s.currentPlayer] := by
  simp [Model.settle, Model.gameOver, Model.checkVictory, h]

theorem settle_of_full (s : Model) (h1 : s.check = false)
    (h2 : (s.board.all fun i => i.isSome) = true) :
    s.settle.state = { s with finishedGame := true } ∧
      s.settle.events = [Notification.draw] := by
  simp [Model.settle, Model.gameOver, Model.checkVictory, Model.checkDraw, h1, h2]

theorem settle_of_open (s : Model) (h1 : s.check = false)
    (h2 : (s.board.all fun i => i.isSome) = false) (h3 : s.finishedGame = false) :
    s.settle.state = { s with currentPlayer := s.currentPlayer.other } ∧
      s.settle.events = [Notification.switchPlayer s.currentPlayer.other] := by
  cases hp : s.currentPlayer <;>
    simp [Model.settle, Model.gameOver, Model.checkVictory, Model.checkDraw,
      Model.switchPlayer, Mark.other, h1, h2, h3, hp]

theorem settle_of_open_ended (s : Model) (h1 : s.check = false)
    (h2 : (s.board.all fun i => i.isSome) = false) (h3 : s.finishedGame = true) :
    s.settle.state = s ∧ s.settle.events = [] := by
  simp [Model.settle, Model.gameOver, Model.checkVictory, Model.checkDraw, h1, h2, h3]

/-- The bookkeeping at the end of a move leaves the board and its dimensions
alone. -/
theorem settle_board (s : Model) :
    s.settle.state.board = s.board ∧ s.settle.state.width = s.width ∧
      s.settle.state.height = s.height := by
  cases h1 : s.check
  · cases h2 : (s.board.all fun i => i.isSome)
    · cases h3 : s.finishedGame
      · rw [(settle_of_open s h1 h2 h3).1]
        exact ⟨rfl, rfl, rfl⟩
      · rw [(settle_of_open_ended s h1 h2 h3).1]
        exact ⟨rfl, rfl, rfl⟩
    · rw [(settle_of_full s h1 h2).1]
      exact ⟨rfl, rfl, rfl⟩
  · rw [(settle_of_check s h1).1]
    exact ⟨rfl, rfl, rfl⟩

/-! ## Where an accepted move lands -/

/-- For an accepted move the loop adds `width` some `k` times, over empty
cells only, and ends inside the board. -/
theorem landing_spec (s : Model) (move : Int) (hacc : s.rejects move = false) :
    ∃ k : Nat, s.landing move = move + k * s.width ∧
      (∀ j : Nat, j ≤ k → s.cell (move + j * s.width) = none) ∧
      s.landing move ≤ (s.width : Int) * s.height - 1 := by
  obtain ⟨h0, h1, hc⟩ := (rejects_eq_false_iff s move).mp hacc
  obtain ⟨k, _, hEq, hCells, _⟩ := dropLoop_spec s s.height move
  refine ⟨k, hEq, ?_, ?_⟩
  · intro j hj
    by_cases hj0 : j = 0
    · subst hj0
      simpa using hc
    · exact (hCells j (by omega) hj).1
  · unfold Model.landing
    rw [hEq]
    by_cases hk0 : k = 0
    · subst hk0
      rw [mul_comm (s.width : Int)]
      simpa using h1
    · exact (hCells k (by omega) (le_refl _)).2

theorem landing_ge (s : Model) (move : Int) (hacc : s.rejects move = false) :
    move ≤ s.landing move := by
  obtain ⟨k, hEq, _, _⟩ := landing_spec s move hacc
  rw [hEq]
  have : (0 : Int) ≤ (k : Int) * s.width := by positivity
  omega

theorem landing_nonneg (s : Model) (move : Int) (hacc : s.rejects move = false) :
    0 ≤ s.landing move := by
  have := landing_ge s move hacc
  have := ((rejects_eq_false_iff s move).mp hacc).1
  omega

theorem landing_lt (s : Model) (move : Int) (hacc : s.rejects move = false) :
    s.landing move < (s.width : Int) * s.height := by
  obtain ⟨k, _, _, hle⟩ := landing_spec s move hacc
  omega

theorem landing_empty (s : Model) (move : Int) (hacc : s.rejects move = false) :
    s.cell (s.landing move) = none := by
  obtain ⟨k, hEq, hCells, _⟩ := landing_spec s move hacc
  rw [hEq]
  exact hCells k (le_refl _)

/-- On a board of `width * height` cells the write of an accepted move changes
the landing cell and no other. -/
theorem place_cell (s : Model) (move : Int) (hs : s.Sized) (hacc : s.rejects move = false)
    (i : Int) :
    (s.place move).cell i =
      if i = s.landing move then some s.currentPlayer else s.cell i := by
  have h0 := landing_nonneg s move hacc
  have h1 := landing_lt s move hacc
  unfold Model.Sized at hs
  have hn : (s.landing move).toNat < s.board.length := by
    rw [hs]
    have : ((s.landing move).toNat : Int) < ((s.width * s.height : Nat) : Int) := by
      rw [Int.toNat_of_nonneg h0]
      push_cast
      exact h1
    exact_mod_cast this
  have := cell_set s (s.landing move).toNat (some s.currentPlayer) i hn
  rw [Int.toNat_of_nonneg h0] at this
  exact this

theorem play_state_board (s : Model) (move : Int) (hacc : s.rejects move = false) :
    (s.play move).state.board = s.board.set (s.landing move).toNat (some s.currentPlayer) ∧
      (s.play move).state.width = s.width ∧ (s.play move).state.height = s.height := by
  rw [play_of_accepts s move hacc]
  exact settle_board (s.place move)

theorem cell_congr (s t : Model) (h : s.board = t.board) (i : Int) : s.cell i = t.cell i := by
  unfold Model.cell
  rw [h]

theorem settle_events_cases (s : Model) :
    s.settle.events = [Notification.victory s.currentPlayer] ∨
      s.settle.events = [Notification.draw] ∨
      s.settle.events = [Notification.switchPlayer s.currentPlayer.other] ∨
      s.settle.events = [] := by
  cases h1 : s.check
  · cases h2 : (s.board.all fun i => i.isSome)
    · cases h3 : s.finishedGame
      · exact Or.inr (Or.inr (Or.inl (settle_of_open s h1 h2 h3).2))
      · exact Or.inr (Or.inr (Or.inr (settle_of_open_ended s h1 h2 h3).2))
    · exact Or.inr (Or.inl (settle_of_full s h1 h2).2)
  · exact Or.inl (settle_of_check s h1).2

/-! ## Rejected moves -/

/-- C1, evaluated on the code: after the winning move of `wonGame` the flag
`finishedGame` is set, yet `play(4)` returns `true`, writes 🟡 into cell 46
and triggers the update and victory notifications again.  The guard of `play`
reads `finished`, the flag that is set is `finishedGame`. -/
theorem play_after_finishedGame_accepts :
    wonGame.finishedGame = true ∧ wonGame.cell 46 = none ∧
      (wonGame.play 4).value = true ∧
      (wonGame.play 4).state.cell 46 = some Mark.yellow ∧
      (wonGame.play 4).events =
        [Notification.update (wonGame.play 4).state.board,
          Notification.victory Mark.yellow] := by
  decide

/-- C2: a move onto an occupied cell is rejected: `play` returns `false`, the
state (board, `currentPlayer`, `finishedGame`) is what it was and no
notification is triggered.  An occupied cell is always an in-range index. -/
theorem play_occupied_rejected (s : Model) (move : Int)
    (hocc : (s.cell move).isSome = true) :
    (s.play move).value = false ∧ (s.play move).state = s ∧ (s.play move).events = [] := by
  have h : s.rejects move = true := by
    simp [Model.rejects, hocc]
  rw [play_of_rejects s move h]
  exact ⟨rfl, rfl, rfl⟩

theorem play_occupied_rejected_witness :
    (fullColumnGame.cell 0).isSome = true ∧
      ((fullColumnGame.play 0).value = false ∧ (fullColumnGame.play 0).state = fullColumnGame ∧
        (fullColumnGame.play 0).events = []) :=
  ⟨by decide, play_occupied_rejected fullColumnGame 0 (by decide)⟩

/-- C3: a move below 0 or at or above `width * height` is rejected: `play`
returns `false`, the state is what it was and no notification is triggered. -/
theorem play_out_of_range_rejected (s : Model) (move : Int)
    (h : move < 0 ∨ move ≥ (s.width : Int) * s.height) :
    (s.play move).value = false ∧ (s.play move).state = s ∧ (s.play move).events = [] := by
  have hr : s.rejects move = true := by
    cases hr : s.rejects move
    · have := (rejects_eq_false_iff s move).mp hr
      rw [mul_comm (s.height : Int)] at this
      omega
    · rfl
  rw [play_of_rejects s move hr]
  exact ⟨rfl, rfl, rfl⟩

theorem play_out_of_range_rejected_witness :
    ((49 : Int) < 0 ∨ (49 : Int) ≥ ((Model.constructor 7 7).width : Int) *
        (Model.constructor 7 7).height) ∧
      (((Model.constructor 7 7).play 49).value = false ∧
        ((Model.constructor 7 7).play 49).state = Model.constructor 7 7 ∧
        ((Model.constructor 7 7).play 49).events = []) :=
  ⟨by decide, play_out_of_range_rejected (Model.constructor 7 7) 49 (by decide)⟩

/-! ## Accepted moves -/

/-- C4: on a board of `width * height` cells a move onto an empty in-range
cell is accepted, whether or not `finishedGame` is set: `play` returns `true`,
the board keeps its length, exactly one cell `L` changes, from empty to the
mark that was `currentPlayer`, and exactly one update notification is
triggered, carrying the new board. -/
theorem play_accepts_empty_cell (s : Model) (move : Int) (hs : s.Sized)
    (h0 : 0 ≤ move) (h1 : move < (s.width : Int) * s.height) (hc : s.cell move = none) :
    (s.play move).value = true ∧
      (s.play move).state.board.length = s.board.length ∧
      (∃ L : Int, 0 ≤ L ∧ L < (s.width : Int) * s.height ∧ s.cell L = none ∧
        (s.play move).state.cell L = some s.currentPlayer ∧
        ∀ i : Int, i ≠ L → (s.play move).state.cell i = s.cell i) ∧
      (s.play move).events.filter Notification.isUpdate =
        [Notification.update (s.play move).state.board] := by
  have hacc : s.rejects move = false := by
    rw [rejects_eq_false_iff, mul_comm (s.height : Int)]
    exact ⟨h0, by omega, hc⟩
  have hb := (play_state_board s move hacc).1
  have hcell : ∀ i : Int, (s.play move).state.cell i =
      if i = s.landing move then some s.currentPlayer else s.cell i := by
    intro i
    rw [← place_cell s move hs hacc i]
    exact cell_congr _ _ hb i
  refine ⟨(play_value_eq_true_iff s move).mpr hacc, ?_, ?_, ?_⟩
  · rw [hb, List.length_set]
  · refine ⟨s.landing move, landing_nonneg s move hacc, landing_lt s move hacc,
      landing_empty s move hacc, ?_, ?_⟩
    · rw [hcell, if_pos rfl]
    · intro i hi
      rw [hcell, if_neg hi]
  · rw [hb]
    rw [play_of_accepts s move hacc]
    have hp : (s.place move).board =
        s.board.set (s.landing move).toNat (some s.currentPlayer) := rfl
    rw [← hp]
    rcases settle_events_cases (s.place move) with h | h | h | h <;>
      simp [h, Notification.isUpdate]

theorem play_accepts_empty_cell_witness :
    (Model.constructor 7 7).Sized ∧ (0 : Int) ≤ 3 ∧
      (3 : Int) < ((Model.constructor 7 7).width : Int) * (Model.constructor 7 7).height ∧
      (Model.constructor 7 7).cell 3 = none ∧
      (((Model.constructor 7 7).play 3).value = true ∧
        ((Model.constructor 7 7).play 3).state.board.length =
          (Model.constructor 7 7).board.length ∧
        (∃ L : Int, 0 ≤ L ∧
          L < ((Model.constructor 7 7).width : Int) * (Model.constructor 7 7).height ∧
          (Model.constructor 7 7).cell L = none ∧
          ((Model.constructor 7 7).play 3).state.cell L =
            some (Model.constructor 7 7).currentPlayer ∧
          ∀ i : Int, i ≠ L →
            ((Model.constructor 7 7).play 3).state.cell i = (Model.constructor 7 7).cell i) ∧
        ((Model.constructor 7 7).play 3).events.filter Notification.isUpdate =
          [Notification.update ((Model.constructor 7 7).play 3).state.board]) :=
  ⟨by decide, by decide, by decide, by decide,
    play_accepts_empty_cell (Model.constructor 7 7) 3 (by decide) (by decide) (by decide)
      (by decide)⟩

/-! ## Invariants of reachable states -/

theorem constructor_cell (w h : Nat) (i : Int) : (Model.constructor w h).cell i = none := by
  by_cases hi : i < 0
  · exact cell_of_neg _ _ hi
  · obtain ⟨k, rfl⟩ := Int.eq_ofNat_of_zero_le (not_lt.mp hi)
    rw [cell_natCast]
    simp only [Model.constructor, List.getElem?_replicate]
    split <;> rfl

theorem constructor_sized (w h : Nat) : (Model.constructor w h).Sized := by
  simp [Model.Sized, Model.constructor, Nat.mul_comm]

theorem constructor_stacked (w h : Nat) : (Model.constructor w h).Stacked := by
  intro i _ _ hsome
  rw [constructor_cell] at hsome
  simp at hsome

theorem play_sized (s : Model) (move : Int) (hs : s.Sized) : (s.play move).state.Sized := by
  cases hacc : s.rejects move
  · obtain ⟨hb, hw, hh⟩ := play_state_board s move hacc
    unfold Model.Sized at hs ⊢
    rw [hb, hw, hh, List.length_set, hs]
  · rw [play_of_rejects s move hacc]
    exact hs

/-- The cells after an accepted move on a board of `width * height` cells. -/
theorem play_cell (s : Model) (move : Int) (hs : s.Sized) (hacc : s.rejects move = false)
    (i : Int) :
    (s.play move).state.cell i =
      if i = s.landing move then some s.currentPlayer else s.cell i := by
  rw [← place_cell s move hs hacc i]
  exact cell_congr _ _ (play_state_board s move hacc).1 i

theorem play_stacked (s : Model) (move : Int) (hs : s.Sized) (hst : s.Stacked) :
    (s.play move).state.Stacked := by
  cases hacc : s.rejects move
  · obtain ⟨_, hw, hh⟩ := play_state_board s move hacc
    intro i hi0 hi1 hsome
    rw [hw, hh] at hi1
    rw [hw]
    rw [play_cell s move hs hacc] at hsome ⊢
    by_cases hL : i + s.width = s.landing move
    · rw [if_pos hL]
      rfl
    · rw [if_neg hL]
      by_cases hi : i = s.landing move
      · have hstop := landing_stopped s move ((rejects_eq_false_iff s move).mp hacc).1
        rw [← hi] at hstop
        cases hcell : (s.cell (i + s.width)).isSome
        · exact absurd ⟨by omega, hcell⟩ hstop
        · rfl
      · rw [if_neg hi] at hsome
        exact hst i hi0 hi1 hsome
  · rw [play_of_rejects s move hacc]
    exact hst

/-- Every reachable state has a board of `width * height` cells on which
gravity has been respected. -/
theorem reachable_sized_stacked (s : Model) (hr : Reachable s) : s.Sized ∧ s.Stacked := by
  induction hr with
  | fresh w h => exact ⟨constructor_sized w h, constructor_stacked w h⟩
  | step s move _ ih => exact ⟨play_sized s move ih.1, play_stacked s move ih.1 ih.2⟩

theorem reachable_playAll (s : Model) (moves : List Int) (hr : Reachable s) :
    Reachable (s.playAll moves) := by
  induction moves generalizing s with
  | nil => exact hr
  | cons move rest ih => exact ih _ (Reachable.step s move hr)

/-- On a stacked board every in-range cell of the landing column beneath the
landing cell is occupied. -/
theorem below_landing_occupied (s : Model) (move : Int) (hst : s.Stacked) (h0 : 0 ≤ move)
    (t : Nat) (ht : 1 ≤ t)
    (hin : s.landing move + t * s.width < (s.width : Int) * s.height) :
    (s.cell (s.landing move + t * s.width)).isSome = true := by
  have hL0 : 0 ≤ s.landing move := by
    obtain ⟨k, _, hEq, _, _⟩ := dropLoop_spec s s.height move
    unfold Model.landing
    rw [hEq]
    have : (0 : Int) ≤ (k : Int) * s.width := by positivity
    omega
  have hw : (0 : Int) ≤ s.width := Int.natCast_nonneg _
  induction t with
  | zero => omega
  | succ t ih =>
    have e : s.landing move + ((t + 1 : Nat) : Int) * s.width =
        s.landing move + t * s.width + s.width := by
      push_cast
      ring
    rw [e] at hin ⊢
    have hmul : (s.width : Int) * ((s.height : Int) - 1) = s.width * s.height - s.width := by
      ring
    by_cases ht0 : t = 0
    · subst ht0
      simp only [Nat.cast_zero, zero_mul, add_zero] at hin ⊢
      have hstop := landing_stopped s move h0
      cases hcell : (s.cell (s.landing move + s.width)).isSome
      · exact absurd ⟨by omega, hcell⟩ hstop
      · rfl
    · have htw : (0 : Int) ≤ (t : Int) * s.width := by positivity
      exact hst _ (by omega) (by omega) (ih (by omega) (by omega))

/-! ## Gravity -/

/-- C5: in a reachable state an accepted move writes the mark of
`currentPlayer` at `landing`, an empty cell of the column of `move` that no
empty cell of that column lies below (none has a larger index, nor a larger
row index); when the whole column is empty `landing` is in the bottom row. -/
theorem play_lands_on_lowest_empty (s : Model) (move : Int) (hr : Reachable s)
    (hacc : (s.play move).value = true) :
    (s.play move).state.board =
        s.board.set (s.landing move).toNat (some s.currentPlayer) ∧
      0 ≤ s.landing move ∧ s.landing move < (s.width : Int) * s.height ∧
      s.landing move % s.width = move % s.width ∧
      s.cell (s.landing move) = none ∧
      (s.play move).state.cell (s.landing move) = some s.currentPlayer ∧
      (∀ i : Int, 0 ≤ i → i < (s.width : Int) * s.height → i % s.width = move % s.width →
        s.cell i = none → i ≤ s.landing move ∧ i / s.width ≤ s.landing move / s.width) ∧
      ((∀ i : Int, 0 ≤ i → i < (s.width : Int) * s.height → i % s.width = move % s.width →
          s.cell i = none) →
        (s.width : Int) * ((s.height : Int) - 1) ≤ s.landing move) := by
  have hrej : s.rejects move = false := (play_value_eq_true_iff s move).mp hacc
  obtain ⟨hs, hst⟩ := reachable_sized_stacked s hr
  obtain ⟨h0, h1, _⟩ := (rejects_eq_false_iff s move).mp hrej
  have hL0 := landing_nonneg s move hrej
  have hL1 := landing_lt s move hrej
  have hw : (0 : Int) < s.width := by
    by_contra hw
    have hz : (s.width : Int) = 0 := by omega
    rw [hz, mul_zero] at h1
    omega
  have hmod : s.landing move % s.width = move % s.width := by
    obtain ⟨k, hEq, _, _⟩ := landing_spec s move hrej
    rw [hEq, Int.add_mul_emod_self]
  have hmul : (s.width : Int) * ((s.height : Int) - 1) = s.width * s.height - s.width := by
    ring
  refine ⟨(play_state_board s move hrej).1, hL0, hL1, hmod, landing_empty s move hrej, ?_,
    ?_, ?_⟩
  · rw [play_cell s move hs hrej, if_pos rfl]
  · intro i hi0 hi1 himod hnone
    have hle : i ≤ s.landing move := by
      by_contra hgt
      have hdvd : (s.width : Int) ∣ i - s.landing move := by
        apply Int.dvd_of_emod_eq_zero
        rw [Int.sub_emod, himod, hmod]
        simp
      obtain ⟨q, hq⟩ := hdvd
      have hqpos : 0 < q := by
        by_contra hq0
        have : (s.width : Int) * q ≤ 0 :=
          Int.mul_nonpos_of_nonneg_of_nonpos (le_of_lt hw) (by omega)
        omega
      obtain ⟨t, rfl⟩ := Int.eq_ofNat_of_zero_le (le_of_lt hqpos)
      have hi : i = s.landing move + t * s.width := by
        rw [mul_comm] at hq
        have hq2 : i - s.landing move = (t : Int) * s.width := hq
        omega
      have hocc := below_landing_occupied s move hst h0 t (by omega) (by rw [← hi]; exact hi1)
      rw [← hi, hnone] at hocc
      simp at hocc
    exact ⟨hle, Int.ediv_le_ediv hw hle⟩
  · intro hcol
    by_contra hlt
    have hstop := landing_stopped s move h0
    have hin : s.landing move + s.width < (s.width : Int) * s.height := by omega
    have hcell := hcol (s.landing move + s.width) (by omega) hin
      (by rw [Int.add_emod_self, hmod])
    exact hstop ⟨by omega, by rw [hcell]; rfl⟩

theorem play_lands_on_lowest_empty_witness :
    Reachable twoInColumnGame ∧ (twoInColumnGame.play 3).value = true ∧
      twoInColumnGame.landing 3 = 31 ∧
      (twoInColumnGame.play 3).state.cell (twoInColumnGame.landing 3) =
        some twoInColumnGame.currentPlayer :=
  ⟨reachable_playAll _ _ (Reachable.fresh 7 7), by decide, by decide,
    (play_lands_on_lowest_empty twoInColumnGame 3
      (reachable_playAll _ _ (Reachable.fresh 7 7)) (by decide)).2.2.2.2.2.1⟩

/-! ## Outcome of an accepted move -/

theorem check_congr (s t : Model) (hb : s.board = t.board) (hw : s.width = t.width)
    (hh : s.height = t.height) : s.check = t.check := by
  obtain ⟨w, h, b, f, p⟩ := s
  obtain ⟨w2, h2, b2, f2, p2⟩ := t
  simp only at hb hw hh
  subst hb hw hh
  rfl

theorem fourInRow_congr (s t : Model) (hb : s.board = t.board) (hw : s.width = t.width)
    (hh : s.height = t.height) : s.FourInRow ↔ t.FourInRow := by
  rw [← check_iff_fourInRow, ← check_iff_fourInRow, check_congr s t hb hw hh]

theorem full_congr (s t : Model) (hb : s.board = t.board) : s.Full ↔ t.Full := by
  unfold Model.Full
  rw [hb]

theorem not_fourInRow_of_check (s : Model) (h : s.check = false) : ¬ s.FourInRow := by
  intro hf
  rw [(check_iff_fourInRow s).mpr hf] at h
  exact Bool.noConfusion h

/-- The four ways an accepted move ends, by what `check` and `every` find on
the board after the write and by the flag `finishedGame` before the move. -/
theorem play_accepted_cases (s : Model) (move : Int) (hacc : s.rejects move = false) :
    ((s.place move).check = true ∧
        (s.play move).state = { s.place move with finishedGame := true } ∧
        (s.play move).events =
          [Notification.update (s.place move).board,
            Notification.victory s.currentPlayer]) ∨
      ((s.place move).check = false ∧ (s.place move).Full ∧
        (s.play move).state = { s.place move with finishedGame := true } ∧
        (s.play move).events =
          [Notification.update (s.place move).board, Notification.draw]) ∨
      ((s.place move).check = false ∧ ¬ (s.place move).Full ∧ s.finishedGame = false ∧
        (s.play move).state = { s.place move with currentPlayer := s.currentPlayer.other } ∧
        (s.play move).events =
          [Notification.update (s.place move).board,
            Notification.switchPlayer s.currentPlayer.other]) ∨
      ((s.place move).check = false ∧ ¬ (s.place move).Full ∧ s.finishedGame = true ∧
        (s.play move).state = s.place move ∧
        (s.play move).events = [Notification.update (s.place move).board]) := by
  rw [play_of_accepts s move hacc]
  have hp : (s.place move).currentPlayer = s.currentPlayer := rfl
  have hf : (s.place move).finishedGame = s.finishedGame := rfl
  cases h1 : (s.place move).check
  · cases h2 : ((s.place move).board.all fun i => i.isSome)
    · have hnf : ¬ (s.place move).Full := by
        rw [← all_isSome_iff_full, h2]
        exact Bool.noConfusion
      cases h3 : s.finishedGame
      · obtain ⟨e1, e2⟩ := settle_of_open (s.place move) h1 h2 (hf.trans h3)
        rw [e1, e2, hp]
        exact Or.inr (Or.inr (Or.inl ⟨rfl, hnf, rfl, rfl, rfl⟩))
      · obtain ⟨e1, e2⟩ := settle_of_open_ended (s.place move) h1 h2 (hf.trans h3)
        rw [e1, e2]
        exact Or.inr (Or.inr (Or.inr ⟨rfl, hnf, rfl, rfl, rfl⟩))
    · obtain ⟨e1, e2⟩ := settle_of_full (s.place move) h1 h2
      rw [e1, e2]
      exact Or.inr (Or.inl ⟨rfl, (all_isSome_iff_full _).mp h2, rfl, rfl⟩)
  · obtain ⟨e1, e2⟩ := settle_of_check (s.place move) h1
    rw [e1, e2, hp]
    exact Or.inl ⟨rfl, rfl, rfl⟩

theorem play_state_fourInRow (s : Model) (move : Int) (hacc : s.rejects move = false) :
    (s.play move).state.FourInRow ↔ (s.place move).check = true := by
  rw [← check_iff_fourInRow]
  obtain ⟨hb, hw, hh⟩ := play_state_board s move hacc
  rw [check_congr (s.play move).state (s.place move) hb hw hh]

theorem play_state_full (s : Model) (move : Int) (hacc : s.rejects move = false) :
    (s.play move).state.Full ↔ (s.place move).Full :=
  full_congr _ _ (play_state_board s move hacc).1

/-! ## Win and draw detection -/

/-- C6: `checkVictory` returns `true` exactly when the board has a
four-in-a-row: a start cell and one of the four directions such that the four
cells of the line lie inside the grid and hold one and the same mark.  This
holds for every width, height and board. -/
theorem checkVictory_iff_fourInRow (s : Model) :
    s.checkVictory.value = true ↔ s.FourInRow :=
  check_iff_fourInRow s

/-- C7: `checkDraw` returns `true` exactly when every cell of the board is
non-empty, triggers the draw notification (once) exactly when it returns
`true`, and leaves the state as it is. -/
theorem checkDraw_iff_full (s : Model) :
    (s.checkDraw.value = true ↔ s.Full) ∧
      s.checkDraw.events = (if s.checkDraw.value = true then [Notification.draw] else []) ∧
      s.checkDraw.state = s :=
  ⟨all_isSome_iff_full s, rfl, rfl⟩

/-- C8 as stated fails on `fullWonGame`: the board has `width * height` cells,
all occupied, `checkDraw` returns `true`, and 🟡 has four in a row. -/
theorem checkDraw_ignores_fourInRow :
    fullWonGame.Sized ∧
      ¬ (fullWonGame.checkDraw.value = true ↔ (fullWonGame.Full ∧ ¬ fullWonGame.FourInRow)) := by
  refine ⟨by decide, ?_⟩
  intro h
  have h1 : fullWonGame.checkDraw.value = true := by decide
  exact (h.mp h1).2 ((check_iff_fourInRow _).mp (by decide))

/-- C8, amended: for every board, `checkDraw` returns `true` exactly when all
cells are occupied, four-in-a-row or not; `play` calls it only after
`checkVictory` returned `false`, so an accepted move triggers the draw
notification exactly when the board after it is full and has no
four-in-a-row. -/
theorem draw_notification_iff (s : Model) :
    (s.checkDraw.value = true ↔ s.Full) ∧
      ∀ move : Int, (s.play move).value = true →
        (Notification.draw ∈ (s.play move).events ↔
          ((s.play move).state.Full ∧ ¬ (s.play move).state.FourInRow)) := by
  refine ⟨all_isSome_iff_full s, ?_⟩
  intro move hacc
  have hrej : s.rejects move = false := (play_value_eq_true_iff s move).mp hacc
  rw [play_state_fourInRow s move hrej, play_state_full s move hrej]
  rcases play_accepted_cases s move hrej with ⟨h1, _, he⟩ | ⟨h1, h2, _, he⟩ |
    ⟨h1, h2, _, _, he⟩ | ⟨h1, h2, _, _, he⟩
  · rw [he]
    simp [h1]
  · rw [he]
    simp [h1, h2]
  · rw [he]
    simp [h2]
  · rw [he]
    simp [h2]

theorem draw_notification_iff_witness :
    fullWonGame.checkDraw.value = true ∧
      (fullWonGame.checkDraw.value = true ↔ fullWonGame.Full) ∧
      (lastCellGame.play 3).value = true ∧
      (Notification.draw ∈ (lastCellGame.play 3).events ↔
        ((lastCellGame.play 3).state.Full ∧ ¬ (lastCellGame.play 3).state.FourInRow)) :=
  ⟨by decide, (draw_notification_iff fullWonGame).1, by decide,
    (draw_notification_iff lastCellGame).2 3 (by decide)⟩

/-! ## Turn alternation and the winning move -/

/-- C9: when the game is not finished and an accepted move leaves a board
with no four-in-a-row and an empty cell, `currentPlayer` becomes the other
mark, `finishedGame` stays `false`, and after the update notification exactly
one turn-switch notification is triggered, carrying the new `currentPlayer`. -/
theorem play_switches_player (s : Model) (move : Int) (hfin : s.finishedGame = false)
    (hacc : (s.play move).value = true) (hno4 : ¬ (s.play move).state.FourInRow)
    (hnf : ¬ (s.play move).state.Full) :
    (s.play move).state.currentPlayer = s.currentPlayer.other ∧
      (s.play move).state.currentPlayer ≠ s.currentPlayer ∧
      (s.play move).state.finishedGame = false ∧
      (s.play move).events =
        [Notification.update (s.play move).state.board,
          Notification.switchPlayer (s.play move).state.currentPlayer] := by
  have hrej : s.rejects move = false := (play_value_eq_true_iff s move).mp hacc
  rw [play_state_fourInRow s move hrej] at hno4
  rw [play_state_full s move hrej] at hnf
  have hf : (s.place move).finishedGame = s.finishedGame := rfl
  rcases play_accepted_cases s move hrej with ⟨h1, _, _⟩ | ⟨_, h2, _, _⟩ |
    ⟨_, _, _, hst, he⟩ | ⟨_, _, h3, _, _⟩
  · exact absurd h1 hno4
  · exact absurd h2 hnf
  · rw [hst, he]
    refine ⟨rfl, ?_, hf.trans hfin, rfl⟩
    show s.currentPlayer.other ≠ s.currentPlayer
    cases s.currentPlayer <;> simp [Mark.other]
  · rw [hfin] at h3
    exact Bool.noConfusion h3

theorem play_switches_player_witness :
    (Model.constructor 7 7).finishedGame = false ∧
      ((Model.constructor 7 7).play 3).value = true ∧
      ¬ ((Model.constructor 7 7).play 3).state.FourInRow ∧
      ¬ ((Model.constructor 7 7).play 3).state.Full ∧
      (((Model.constructor 7 7).play 3).state.currentPlayer =
          (Model.constructor 7 7).currentPlayer.other ∧
        ((Model.constructor 7 7).play 3).state.currentPlayer ≠
          (Model.constructor 7 7).currentPlayer ∧
        ((Model.constructor 7 7).play 3).state.finishedGame = false ∧
        ((Model.constructor 7 7).play 3).events =
          [Notification.update ((Model.constructor 7 7).play 3).state.board,
            Notification.switchPlayer ((Model.constructor 7 7).play 3).state.currentPlayer]) :=
  ⟨by decide, by decide, not_fourInRow_of_check _ (by decide), by decide,
    play_switches_player (Model.constructor 7 7) 3 (by decide) (by decide)
      (not_fourInRow_of_check _ (by decide)) (by decide)⟩

/-- C10: an accepted move after which the board has a four-in-a-row sets
`finishedGame`, leaves `currentPlayer` as it was, and triggers, after the
update notification, the victory notification once with the mark of the
player who moved, and neither a turn-switch nor a draw notification, also
when the move fills the board.  The flag `finishedGame` before the move plays
no part. -/
theorem play_winning_move (s : Model) (move : Int) (hacc : (s.play move).value = true)
    (h4 : (s.play move).state.FourInRow) :
    (s.play move).state.finishedGame = true ∧
      (s.play move).state.currentPlayer = s.currentPlayer ∧
      (s.play move).events =
        [Notification.update (s.play move).state.board,
          Notification.victory s.currentPlayer] := by
  have hrej : s.rejects move = false := (play_value_eq_true_iff s move).mp hacc
  rw [play_state_fourInRow s move hrej] at h4
  rcases play_accepted_cases s move hrej with ⟨_, hst, he⟩ | ⟨h1, _, _, _⟩ |
    ⟨h1, _, _, _, _⟩ | ⟨h1, _, _, _, _⟩
  · rw [hst, he]
    exact ⟨rfl, rfl, rfl⟩
  · rw [h4] at h1
    exact Bool.noConfusion h1
  · rw [h4] at h1
    exact Bool.noConfusion h1
  · rw [h4] at h1
    exact Bool.noConfusion h1

/-- The scenario of C10: on a 7 by 7 board the moves 0, 0, 1, 1, 2, 2, 3 put
🟡 on cells 42 to 45 of the bottom row; the last move ends with `finishedGame`
set and the victory notification for 🟡. -/
theorem play_winning_move_witness :
    threeInRowGame.finishedGame = false ∧ threeInRowGame.currentPlayer = Mark.yellow ∧
      (threeInRowGame.play 3).value = true ∧
      (threeInRowGame.play 3).state = wonGame ∧
      wonGame.cell 42 = some Mark.yellow ∧ wonGame.cell 43 = some Mark.yellow ∧
      wonGame.cell 44 = some Mark.yellow ∧ wonGame.cell 45 = some Mark.yellow ∧
      (threeInRowGame.play 3).state.FourInRow ∧
      ((threeInRowGame.play 3).state.finishedGame = true ∧
        (threeInRowGame.play 3).state.currentPlayer = threeInRowGame.currentPlayer ∧
        (threeInRowGame.play 3).events =
          [Notification.update (threeInRowGame.play 3).state.board,
            Notification.victory threeInRowGame.currentPlayer]) :=
  ⟨by decide, by decide, by decide, by decide, by decide, by decide, by decide, by decide,
    (check_iff_fourInRow _).mp (by decide),
    play_winning_move threeInRowGame 3 (by decide) ((check_iff_fourInRow _).mp (by decide))⟩

/-! ## The drawing move -/

/-- C11: an accepted move after which every cell is occupied and the board
has no four-in-a-row sets `finishedGame`, leaves `currentPlayer` as it was,
and triggers, after the update notification, the draw notification once and
neither a victory nor a turn-switch notification.  The flag `finishedGame`
before the move plays no part. -/
theorem play_drawing_move (s : Model) (move : Int) (hacc : (s.play move).value = true)
    (hfull : (s.play move).state.Full) (hno4 : ¬ (s.play move).state.FourInRow) :
    (s.play move).state.finishedGame = true ∧
      (s.play move).state.currentPlayer = s.currentPlayer ∧
      (s.play move).events =
        [Notification.update (s.play move).state.board, Notification.draw] := by
  have hrej : s.rejects move = false := (play_value_eq_true_iff s move).mp hacc
  rw [play_state_fourInRow s move hrej] at hno4
  rw [play_state_full s move hrej] at hfull
  rcases play_accepted_cases s move hrej with ⟨h1, _, _⟩ | ⟨_, _, hst, he⟩ |
    ⟨_, h2, _, _, _⟩ | ⟨_, h2, _, _, _⟩
  · exact absurd h1 hno4
  · rw [hst, he]
    exact ⟨rfl, rfl, rfl⟩
  · exact absurd hfull h2
  · exact absurd hfull h2

theorem play_drawing_move_witness :
    oneCellLeftGame.finishedGame = false ∧ (oneCellLeftGame.play 1).value = true ∧
      (oneCellLeftGame.play 1).state.Full ∧ ¬ (oneCellLeftGame.play 1).state.FourInRow ∧
      ((oneCellLeftGame.play 1).state.finishedGame = true ∧
        (oneCellLeftGame.play 1).state.currentPlayer = oneCellLeftGame.currentPlayer ∧
        (oneCellLeftGame.play 1).events =
          [Notification.update (oneCellLeftGame.play 1).state.board, Notification.draw]) :=
  ⟨by decide, by decide, by decide, not_fourInRow_of_check _ (by decide),
    play_drawing_move oneCellLeftGame 1 (by decide) (by decide)
      (not_fourInRow_of_check _ (by decide))⟩

/-! ## Marks stay, the flag stays -/

theorem play_dims (s : Model) (move : Int) :
    (s.play move).state.width = s.width ∧ (s.play move).state.height = s.height := by
  cases hacc : s.rejects move
  · exact (play_state_board s move hacc).2
  · rw [play_of_rejects s move hacc]
    exact ⟨rfl, rfl⟩

/-- A mark on the board before `play` is on the board after it. -/
theorem play_cell_of_some (s : Model) (move : Int) (hs : s.Sized) (i : Int) (m : Mark)
    (h : s.cell i = some m) : (s.play move).state.cell i = some m := by
  cases hacc : s.rejects move
  · rw [play_cell s move hs hacc]
    have hne : i ≠ s.landing move := by
      intro hi
      rw [hi, landing_empty s move hacc] at h
      exact Option.noConfusion h
    rw [if_neg hne]
    exact h
  · rw [play_of_rejects s move hacc]
    exact h

/-- C12: on a board of `width * height` cells every cell that holds a mark
before `play(move)` holds the same mark after it, for every integer `move`,
accepted or rejected. -/
theorem play_keeps_marks (s : Model) (move : Int) (hs : s.Sized) (i : Int) (m : Mark)
    (h : s.cell i = some m) : (s.play move).state.cell i = some m :=
  play_cell_of_some s move hs i m h

theorem play_keeps_marks_witness :
    twoInColumnGame.Sized ∧ twoInColumnGame.cell 45 = some Mark.yellow ∧
      (twoInColumnGame.play 3).value = true ∧
      (twoInColumnGame.play 3).state.cell 45 = some Mark.yellow :=
  ⟨by decide, by decide, by decide,
    play_keeps_marks twoInColumnGame 3 (by decide) 45 Mark.yellow (by decide)⟩

theorem play_finishedGame_of_true (s : Model) (move : Int) (h : s.finishedGame = true) :
    (s.play move).state.finishedGame = true := by
  cases hacc : s.rejects move
  · rcases play_accepted_cases s move hacc with ⟨_, hst, _⟩ | ⟨_, _, hst, _⟩ |
      ⟨_, _, h3, _, _⟩ | ⟨_, _, _, hst, _⟩
    · rw [hst]
    · rw [hst]
    · rw [h] at h3
      exact Bool.noConfusion h3
    · rw [hst]
      exact h
  · rw [play_of_rejects s move hacc]
    exact h

/-- C13: when `finishedGame` is set before `play(move)`, `checkVictory()`,
`checkDraw()` or `switchPlayer()`, it is set afterwards. -/
theorem finishedGame_monotone (s : Model) (move : Int) (h : s.finishedGame = true) :
    (s.play move).state.finishedGame = true ∧
      s.checkVictory.state.finishedGame = true ∧
      s.checkDraw.state.finishedGame = true ∧
      s.switchPlayer.state.finishedGame = true := by
  refine ⟨play_finishedGame_of_true s move h, h, h, ?_⟩
  unfold Model.switchPlayer
  simp only
  split <;> exact h

theorem finishedGame_monotone_witness :
    wonGame.finishedGame = true ∧ (wonGame.play 4).value = true ∧
      ((wonGame.play 4).state.finishedGame = true ∧
        wonGame.checkVictory.state.finishedGame = true ∧
        wonGame.checkDraw.state.finishedGame = true ∧
        wonGame.switchPlayer.state.finishedGame = true) :=
  ⟨by decide, by decide, finishedGame_monotone wonGame 4 (by decide)⟩

/-! ## Stacks and the drop -/

/-- On a stacked board every in-range cell of the same column beneath an
occupied cell is occupied. -/
theorem stacked_below (s : Model) (hst : s.Stacked) (i : Int)
    (hocc : (s.cell i).isSome = true) (t : Nat)
    (hin : i + t * s.width < (s.width : Int) * s.height) :
    (s.cell (i + t * s.width)).isSome = true := by
  have hi0 := (cell_isSome_lt_length s i hocc).1
  have hw : (0 : Int) ≤ s.width := Int.natCast_nonneg _
  induction t with
  | zero => simpa using hocc
  | succ t ih =>
    have e : i + ((t + 1 : Nat) : Int) * s.width = i + t * s.width + s.width := by
      push_cast
      ring
    rw [e] at hin ⊢
    have hmul : (s.width : Int) * ((s.height : Int) - 1) = s.width * s.height - s.width := by
      ring
    have htw : (0 : Int) ≤ (t : Int) * s.width := by positivity
    exact hst _ (by omega) (by omega) (ih (by omega))

/-- C14: in every reachable state an occupied cell above the bottom row has an
occupied cell directly beneath it, at index + width, and so every in-range
cell of its column beneath an occupied cell is occupied: the marks of a
column form a stack resting on the bottom row. -/
theorem reachable_no_floating_marks (s : Model) (hr : Reachable s) :
    (∀ i : Int, (s.cell i).isSome = true → i < (s.width : Int) * ((s.height : Int) - 1) →
        (s.cell (i + s.width)).isSome = true) ∧
      (∀ (i : Int) (t : Nat), (s.cell i).isSome = true →
        i + t * s.width < (s.width : Int) * s.height →
        (s.cell (i + t * s.width)).isSome = true) := by
  have hst := (reachable_sized_stacked s hr).2
  refine ⟨?_, ?_⟩
  · intro i hocc hlt
    exact hst i (cell_isSome_lt_length s i hocc).1 hlt hocc
  · intro i t hocc hin
    exact stacked_below s hst i hocc t hin

theorem reachable_no_floating_marks_witness :
    Reachable twoInColumnGame ∧ (twoInColumnGame.cell 38).isSome = true ∧
      (twoInColumnGame.cell (38 + twoInColumnGame.width)).isSome = true :=
  ⟨reachable_playAll _ _ (Reachable.fresh 7 7), by decide,
    (reachable_no_floating_marks twoInColumnGame
      (reachable_playAll _ _ (Reachable.fresh 7 7))).1 38 (by decide) (by decide)⟩

/-- The indices of one column between two of its members are reached by whole
steps of `width`. -/
theorem column_step (w : Nat) (a i : Int) (hw : (0 : Int) < w) (hle : a ≤ i)
    (hmod : i % w = a % w) : ∃ q : Nat, i = a + q * w := by
  have hdvd : (w : Int) ∣ i - a := by
    apply Int.dvd_of_emod_eq_zero
    rw [Int.sub_emod, hmod]
    simp
  obtain ⟨q, hq⟩ := hdvd
  have hq0 : 0 ≤ q := by
    by_contra hneg
    have : (w : Int) * q < 0 := Int.mul_neg_of_pos_of_neg hw (by omega)
    omega
  obtain ⟨t, rfl⟩ := Int.eq_ofNat_of_zero_le hq0
  refine ⟨t, ?_⟩
  have hq2 : i - a = (t : Int) * w := by
    rw [hq, mul_comm]
  omega

/-- C15: an accepted move writes at `landing`, an index `L` of the column of
`move` with `move ≤ L < width * height`; every cell of that column from `move`
down to `L` was empty before the call, and `L` is in the bottom row or the
cell at `L + width` is occupied.  An accepted move implies `width ≥ 1`. -/
theorem drop_stays_in_column (s : Model) (move : Int) (hacc : (s.play move).value = true) :
    (s.play move).state.board =
        s.board.set (s.landing move).toNat (some s.currentPlayer) ∧
      1 ≤ s.width ∧
      s.landing move % s.width = move % s.width ∧
      move ≤ s.landing move ∧ s.landing move < (s.width : Int) * s.height ∧
      (∀ i : Int, move ≤ i → i ≤ s.landing move → i % s.width = move % s.width →
        s.cell i = none) ∧
      ((s.width : Int) * ((s.height : Int) - 1) ≤ s.landing move ∨
        (s.cell (s.landing move + s.width)).isSome = true) := by
  have hrej : s.rejects move = false := (play_value_eq_true_iff s move).mp hacc
  obtain ⟨h0, h1, _⟩ := (rejects_eq_false_iff s move).mp hrej
  have hw : (0 : Int) < s.width := by
    by_contra hw
    have hz : (s.width : Int) = 0 := by omega
    rw [hz, mul_zero] at h1
    omega
  obtain ⟨k, hEq, hCells, _⟩ := landing_spec s move hrej
  refine ⟨(play_state_board s move hrej).1, by omega, ?_, landing_ge s move hrej,
    landing_lt s move hrej, ?_, ?_⟩
  · rw [hEq, Int.add_mul_emod_self]
  · intro i hlo hhi hmod
    obtain ⟨q, rfl⟩ := column_step s.width move i hw hlo hmod
    apply hCells q
    rw [hEq] at hhi
    have hqk : (q : Int) * s.width ≤ (k : Int) * s.width := by omega
    have := le_of_mul_le_mul_right hqk hw
    exact_mod_cast this
  · have hstop := landing_stopped s move h0
    by_cases hb : (s.width : Int) * ((s.height : Int) - 1) ≤ s.landing move
    · exact Or.inl hb
    · right
      cases hcell : (s.cell (s.landing move + s.width)).isSome
      · exact absurd ⟨by omega, hcell⟩ hstop
      · rfl

theorem drop_stays_in_column_witness :
    (twoInColumnGame.play 3).value = true ∧ twoInColumnGame.landing 3 = 31 ∧
      (twoInColumnGame.cell (twoInColumnGame.landing 3 + twoInColumnGame.width)).isSome = true ∧
      ((twoInColumnGame.play 3).state.board =
          twoInColumnGame.board.set (twoInColumnGame.landing 3).toNat
            (some twoInColumnGame.currentPlayer) ∧
        1 ≤ twoInColumnGame.width ∧
        twoInColumnGame.landing 3 % twoInColumnGame.width = 3 % twoInColumnGame.width ∧
        3 ≤ twoInColumnGame.landing 3 ∧
        twoInColumnGame.landing 3 < (twoInColumnGame.width : Int) * twoInColumnGame.height ∧
        (∀ i : Int, 3 ≤ i → i ≤ twoInColumnGame.landing 3 →
          i % twoInColumnGame.width = 3 % twoInColumnGame.width →
          twoInColumnGame.cell i = none) ∧
        ((twoInColumnGame.width : Int) * ((twoInColumnGame.height : Int) - 1) ≤
            twoInColumnGame.landing 3 ∨
          (twoInColumnGame.cell (twoInColumnGame.landing 3 + twoInColumnGame.width)).isSome =
            true)) :=
  ⟨by decide, by decide, by decide, drop_stays_in_column twoInColumnGame 3 (by decide)⟩

/-! ## The flag, the winner and the board -/

theorem not_full_of_empty (s : Model) (i : Int) (h0 : 0 ≤ i) (hlt : i < s.board.length)
    (hc : s.cell i = none) : ¬ s.Full := by
  obtain ⟨n, rfl⟩ := Int.eq_ofNat_of_zero_le h0
  have hn : n < s.board.length := by exact_mod_cast hlt
  rw [cell_natCast, List.getElem?_eq_getElem hn] at hc
  intro hfull
  have hmem : s.board[n] ∈ s.board := List.getElem_mem hn
  have hsome := hfull _ hmem
  have hnone : s.board[n] = none := by simpa using hc
  rw [hnone] at hsome
  exact Bool.noConfusion hsome

/-- A four-in-a-row of `m` carries over to any board of the same dimensions
that has `m` wherever the first board has it. -/
theorem fourOf_of_cells (s t : Model) (m : Mark) (hw : t.width = s.width)
    (hh : t.height = s.height) (hc : ∀ i : Int, s.cell i = some m → t.cell i = some m)
    (h4 : s.FourOf m) : t.FourOf m := by
  obtain ⟨r, c, dr, dc, hd, hl⟩ := h4
  refine ⟨r, c, dr, dc, hd, fun k h0 h3 => ?_⟩
  obtain ⟨hg, he⟩ := hl k h0 h3
  unfold Model.InGrid Model.cellAt at *
  rw [hw, hh]
  exact ⟨hg, hc _ he⟩

theorem check_eq_false_of_not_fourInRow (s : Model) (h : ¬ s.FourInRow) : s.check = false := by
  cases hc : s.check
  · rfl
  · exact absurd ((check_iff_fourInRow s).mp hc) h

theorem constructor_not_fourInRow (w h : Nat) : ¬ (Model.constructor w h).FourInRow := by
  rintro ⟨m, r, c, dr, dc, _, hl⟩
  have := (hl 0 (le_refl _) (by omega)).2
  unfold Model.cellAt at this
  rw [constructor_cell] at this
  exact Option.noConfusion this

theorem other_ne (m : Mark) : m.other ≠ m := by
  cases m <;> simp [Mark.other]

theorem eq_or_eq_other (p m : Mark) : m = p ∨ m = p.other := by
  cases p <;> cases m <;> simp [Mark.other]

/-- A four-in-a-row of a mark other than the one just written was on the
board before the move. -/
theorem fourOf_before_place (s : Model) (move : Int) (hs : s.Sized)
    (hacc : s.rejects move = false) (m : Mark) (hm : m ≠ s.currentPlayer)
    (h4 : (s.place move).FourOf m) : s.FourOf m := by
  refine fourOf_of_cells (s.place move) s m rfl rfl ?_ h4
  intro i hi
  rw [place_cell s move hs hacc] at hi
  by_cases hL : i = s.landing move
  · rw [if_pos hL] at hi
    exact absurd (Option.some.inj hi).symm hm
  · rw [if_neg hL] at hi
    exact hi

/-- A four-in-a-row on the board before an accepted move is on the board
after the write. -/
theorem fourOf_after_place (s : Model) (move : Int) (hs : s.Sized)
    (hacc : s.rejects move = false) (m : Mark) (h4 : s.FourOf m) :
    (s.place move).FourOf m := by
  refine fourOf_of_cells s (s.place move) m rfl rfl ?_ h4
  intro i hi
  rw [place_cell s move hs hacc]
  have hL : i ≠ s.landing move := by
    intro hL
    rw [hL, landing_empty s move hacc] at hi
    exact Option.noConfusion hi
  rw [if_neg hL]
  exact hi

/-- What the flag `finishedGame` says about the board of a reachable state:
while it is not set there is no four-in-a-row and (on a board with a cell) an
empty cell; once it is set there is a four-in-a-row or the board is full, and
the mark that is not `currentPlayer` has no four-in-a-row. -/
theorem reachable_flag (s : Model) (hr : Reachable s) :
    (s.finishedGame = false →
        s.check = false ∧ (1 ≤ s.width * s.height → ¬ s.Full)) ∧
      (s.finishedGame = true →
        (s.check = true ∨ s.Full) ∧ ¬ s.FourOf s.currentPlayer.other) := by
  induction hr with
  | fresh w h =>
    refine ⟨fun _ => ⟨check_eq_false_of_not_fourInRow _ (constructor_not_fourInRow w h), ?_⟩,
      fun hf => Bool.noConfusion hf⟩
    intro hpos hfull
    have hmem : (none : Cell) ∈ (Model.constructor w h).board := by
      simp only [Model.constructor, List.mem_replicate, and_true]
      simp only [Model.constructor] at hpos
      rw [Nat.mul_comm]
      omega
    exact Bool.noConfusion (hfull _ hmem)
  | step s move hr ih =>
    obtain ⟨hs, _⟩ := reachable_sized_stacked s hr
    cases hacc : s.rejects move
    · have hno : ¬ s.FourOf s.currentPlayer.other := by
        cases hf : s.finishedGame
        · intro h4
          exact not_fourInRow_of_check s (ih.1 hf).1 ⟨_, h4⟩
        · exact (ih.2 hf).2
      rcases play_accepted_cases s move hacc with ⟨h1, hst, _⟩ | ⟨h1, h2, hst, _⟩ |
        ⟨h1, h2, h3, hst, _⟩ | ⟨h1, h2, h3, _, _⟩
      · rw [hst]
        refine ⟨fun hf => Bool.noConfusion hf, fun _ => ⟨Or.inl h1, ?_⟩⟩
        intro h4
        exact hno (fourOf_before_place s move hs hacc _ (other_ne _) h4)
      · rw [hst]
        refine ⟨fun hf => Bool.noConfusion hf, fun _ => ⟨Or.inr h2, ?_⟩⟩
        intro h4
        exact not_fourInRow_of_check _ h1 ⟨_, h4⟩
      · rw [hst]
        refine ⟨fun _ => ⟨h1, fun _ => h2⟩, fun hf => ?_⟩
        have hf2 : s.finishedGame = true := hf
        rw [h3] at hf2
        exact Bool.noConfusion hf2
      · exfalso
        rcases (ih.2 h3).1 with hc | hfull
        · obtain ⟨m, h4⟩ := (check_iff_fourInRow s).mp hc
          exact not_fourInRow_of_check _ h1 ⟨m, fourOf_after_place s move hs hacc m h4⟩
        · obtain ⟨h0, hle, hcell⟩ := (rejects_eq_false_iff s move).mp hacc
          refine not_full_of_empty s move h0 ?_ hcell hfull
          unfold Model.Sized at hs
          rw [hs]
          push_cast
          rw [mul_comm (s.width : Int)]
          omega
    · rw [play_of_rejects s move hacc]
      exact ih

/-- C16: in every reachable state 🟡 and 🔴 do not both have a four-in-a-row,
and whenever `play` (or `checkVictory` called on the state) triggers a
victory notification, its payload has a four-in-a-row on the board and is the
only mark that has one. -/
theorem at_most_one_winner (s : Model) (hr : Reachable s) :
    ¬ (s.FourOf Mark.yellow ∧ s.FourOf Mark.red) ∧
      (∀ (move : Int) (p : Mark), Notification.victory p ∈ (s.play move).events →
        (s.play move).state.FourOf p ∧ ∀ m : Mark, (s.play move).state.FourOf m → m = p) ∧
      (∀ p : Mark, Notification.victory p ∈ s.checkVictory.events →
        s.FourOf p ∧ ∀ m : Mark, s.FourOf m → m = p) := by
  have key : ∀ t : Model, Reachable t → t.check = true →
      t.FourOf t.currentPlayer ∧ ∀ m : Mark, t.FourOf m → m = t.currentPlayer := by
    intro t ht hc
    have hfin : t.finishedGame = true := by
      cases hf : t.finishedGame
      · rw [((reachable_flag t ht).1 hf).1] at hc
        exact Bool.noConfusion hc
      · rfl
    have hno := ((reachable_flag t ht).2 hfin).2
    have hone : ∀ m : Mark, t.FourOf m → m = t.currentPlayer := by
      intro m h4
      rcases eq_or_eq_other t.currentPlayer m with h | h
      · exact h
      · rw [h] at h4
        exact absurd h4 hno
    obtain ⟨m, h4⟩ := (check_iff_fourInRow t).mp hc
    have hm := hone m h4
    rw [hm] at h4
    exact ⟨h4, hone⟩
  refine ⟨?_, ?_, ?_⟩
  · rintro ⟨hy, hred⟩
    have hc : s.check = true := (check_iff_fourInRow s).mpr ⟨_, hy⟩
    have h1 := (key s hr hc).2 Mark.yellow hy
    have h2 := (key s hr hc).2 Mark.red hred
    rw [← h1] at h2
    exact Mark.noConfusion h2
  · intro move p hp
    cases hacc : s.rejects move
    · have hr2 : Reachable (s.play move).state := Reachable.step s move hr
      have hkey := key _ hr2
      rcases play_accepted_cases s move hacc with ⟨h1, hst, he⟩ | ⟨_, _, _, he⟩ |
        ⟨_, _, _, _, he⟩ | ⟨_, _, _, _, he⟩
      · rw [he] at hp
        have hpe : p = s.currentPlayer := by simpa using hp
        rw [hst] at hkey ⊢
        rw [hpe]
        exact hkey h1
      · rw [he] at hp
        simp at hp
      · rw [he] at hp
        simp at hp
      · rw [he] at hp
        simp at hp
    · rw [play_of_rejects s move hacc] at hp
      simp at hp
  · intro p hp
    unfold Model.checkVictory at hp
    simp only at hp
    cases hc : s.check
    · rw [hc] at hp
      simp at hp
    · rw [hc] at hp
      have hpe : p = s.currentPlayer := by simpa using hp
      rw [hpe]
      exact key s hr hc

theorem at_most_one_winner_witness :
    Reachable threeInRowGame ∧
      Notification.victory Mark.yellow ∈ (threeInRowGame.play 3).events ∧
      ((threeInRowGame.play 3).state.FourOf Mark.yellow ∧
        ∀ m : Mark, (threeInRowGame.play 3).state.FourOf m → m = Mark.yellow) :=
  ⟨reachable_playAll _ _ (Reachable.fresh 7 7), by decide,
    (at_most_one_winner threeInRowGame (reachable_playAll _ _ (Reachable.fresh 7 7))).2.1 3
      Mark.yellow (by decide)⟩

/-- C17: in every reachable state of a board with at least one cell,
`finishedGame` is set exactly when the board has a four-in-a-row or every cell
is occupied. -/
theorem finishedGame_iff_board (s : Model) (hr : Reachable s)
    (hpos : 1 ≤ s.width * s.height) :
    s.finishedGame = true ↔ (s.FourInRow ∨ s.Full) := by
  obtain ⟨h1, h2⟩ := reachable_flag s hr
  constructor
  · intro hf
    rcases (h2 hf).1 with hc | hfull
    · exact Or.inl ((check_iff_fourInRow s).mp hc)
    · exact Or.inr hfull
  · intro hb
    cases hf : s.finishedGame
    · obtain ⟨hc, hnf⟩ := h1 hf
      rcases hb with h4 | hfull
      · exact absurd h4 (not_fourInRow_of_check s hc)
      · exact absurd hfull (hnf hpos)
    · rfl

theorem finishedGame_iff_board_witness :
    Reachable wonGame ∧ 1 ≤ wonGame.width * wonGame.height ∧ wonGame.finishedGame = true ∧
      (wonGame.finishedGame = true ↔ (wonGame.FourInRow ∨ wonGame.Full)) :=
  ⟨reachable_playAll _ _ (Reachable.fresh 7 7), by decide, by decide,
    finishedGame_iff_board wonGame (reachable_playAll _ _ (Reachable.fresh 7 7)) (by decide)⟩

/-! ## The row of the selector -/

/-- On a stacked board no empty in-range cell of the column lies beneath the
landing cell. -/
theorem landing_max (s : Model) (move : Int) (hst : s.Stacked) (hacc : s.rejects move = false)
    (i : Int) (hi1 : i < (s.width : Int) * s.height) (hmod : i % s.width = move % s.width)
    (hnone : s.cell i = none) : i ≤ s.landing move := by
  obtain ⟨h0, h1, _⟩ := (rejects_eq_false_iff s move).mp hacc
  have hw : (0 : Int) < s.width := by
    by_contra hw
    have hz : (s.width : Int) = 0 := by omega
    rw [hz, mul_zero] at h1
    omega
  have hLmod : s.landing move % s.width = move % s.width := by
    obtain ⟨k, hEq, _, _⟩ := landing_spec s move hacc
    rw [hEq, Int.add_mul_emod_self]
  by_contra hgt
  obtain ⟨q, hq⟩ := column_step s.width (s.landing move) i hw (by omega)
    (by rw [hmod, hLmod])
  have hq1 : 1 ≤ q := by
    by_contra hq0
    have hz : q = 0 := by omega
    rw [hz] at hq
    simp at hq
    omega
  have hocc := below_landing_occupied s move hst h0 q hq1 (by rw [← hq]; exact hi1)
  rw [← hq, hnone] at hocc
  exact Bool.noConfusion hocc

/-- C18: in a reachable state two in-range empty cells of one column are the
same move: `play` gives the same returned value, the same state and the same
notifications for both; the move is accepted, and the top-row cell of the
column is empty and is the same move too. -/
theorem play_same_column (s : Model) (hr : Reachable s) (m1 m2 : Int)
    (h1 : 0 ≤ m1) (h1lt : m1 < (s.width : Int) * s.height)
    (h2 : 0 ≤ m2) (h2lt : m2 < (s.width : Int) * s.height)
    (hmod : m1 % s.width = m2 % s.width) (he1 : s.cell m1 = none) (he2 : s.cell m2 = none) :
    s.play m1 = s.play m2 ∧ (s.play m1).value = true ∧
      s.cell (m1 % s.width) = none ∧ s.play m1 = s.play (m1 % s.width) := by
  obtain ⟨hs, hst⟩ := reachable_sized_stacked s hr
  have hw : (0 : Int) < s.width := by
    by_contra hw
    have hz : (s.width : Int) = 0 := by omega
    rw [hz, zero_mul] at h1lt
    omega
  have same : ∀ a b : Int, 0 ≤ a → a < (s.width : Int) * s.height → 0 ≤ b →
      b < (s.width : Int) * s.height → a % s.width = b % s.width → s.cell a = none →
      s.cell b = none → s.play a = s.play b := by
    intro a b ha halt hb hblt hab hea heb
    have hra : s.rejects a = false := by
      rw [rejects_eq_false_iff, mul_comm (s.height : Int)]
      exact ⟨ha, by omega, hea⟩
    have hrb : s.rejects b = false := by
      rw [rejects_eq_false_iff, mul_comm (s.height : Int)]
      exact ⟨hb, by omega, heb⟩
    have hLa : s.landing a % s.width = a % s.width := by
      obtain ⟨k, hEq, _, _⟩ := landing_spec s a hra
      rw [hEq, Int.add_mul_emod_self]
    have hLb : s.landing b % s.width = b % s.width := by
      obtain ⟨k, hEq, _, _⟩ := landing_spec s b hrb
      rw [hEq, Int.add_mul_emod_self]
    have hle1 : s.landing a ≤ s.landing b :=
      landing_max s b hst hrb _ (landing_lt s a hra) (by rw [hLa, hab]) (landing_empty s a hra)
    have hle2 : s.landing b ≤ s.landing a :=
      landing_max s a hst hra _ (landing_lt s b hrb) (by rw [hLb, hab]) (landing_empty s b hrb)
    have hL : s.landing a = s.landing b := le_antisymm hle1 hle2
    have hp : s.place a = s.place b := by
      unfold Model.place
      rw [hL]
    rw [play_of_accepts s a hra, play_of_accepts s b hrb, hp]
  have htop0 : 0 ≤ m1 % s.width := Int.emod_nonneg _ (by omega)
  have htoplt : m1 % s.width < s.width := Int.emod_lt_of_pos _ hw
  have hdecomp : m1 % s.width + (m1 / s.width) * s.width = m1 := by
    rw [mul_comm]
    exact Int.emod_add_ediv m1 s.width
  have hq0 : 0 ≤ m1 / s.width := Int.ediv_nonneg h1 (le_of_lt hw)
  have htop : s.cell (m1 % s.width) = none := by
    cases hc : s.cell (m1 % s.width) with
    | none => rfl
    | some m =>
      exfalso
      obtain ⟨q, hq⟩ := Int.eq_ofNat_of_zero_le hq0
      rw [hq] at hdecomp
      have hocc := stacked_below s hst (m1 % s.width) (by rw [hc]; rfl) q
        (by rw [hdecomp]; exact h1lt)
      rw [hdecomp, he1] at hocc
      exact Bool.noConfusion hocc
  have hacc1 : s.rejects m1 = false := by
    rw [rejects_eq_false_iff, mul_comm (s.height : Int)]
    exact ⟨h1, by omega, he1⟩
  refine ⟨same m1 m2 h1 h1lt h2 h2lt hmod he1 he2, (play_value_eq_true_iff s m1).mpr hacc1,
    htop, ?_⟩
  have hmul : (0 : Int) ≤ (m1 / s.width) * s.width := mul_nonneg hq0 (le_of_lt hw)
  exact same m1 (m1 % s.width) h1 h1lt htop0 (by omega) (by rw [Int.emod_emod_of_dvd _ (dvd_refl _)])
    he1 htop

theorem play_same_column_witness :
    Reachable twoInColumnGame ∧ twoInColumnGame.cell 3 = none ∧
      twoInColumnGame.cell 24 = none ∧ (3 : Int) % twoInColumnGame.width = 24 % twoInColumnGame.width ∧
      (twoInColumnGame.play 3 = twoInColumnGame.play 24 ∧
        (twoInColumnGame.play 3).value = true ∧
        twoInColumnGame.cell (3 % twoInColumnGame.width) = none ∧
        twoInColumnGame.play 3 = twoInColumnGame.play (3 % twoInColumnGame.width)) :=
  ⟨reachable_playAll _ _ (Reachable.fresh 7 7), by decide, by decide, by decide,
    play_same_column twoInColumnGame (reachable_playAll _ _ (Reachable.fresh 7 7)) 3 24
      (by decide) (by decide) (by decide) (by decide) (by decide) (by decide) (by decide)⟩

/-! ## Counting marks -/

/-- The write of an accepted move adds one mark of `currentPlayer` and leaves
the number of marks of the other player as it was. -/
theorem place_marks (s : Model) (move : Int) (hs : s.Sized) (hacc : s.rejects move = false)
    (m : Mark) :
    (s.place move).marks m = s.marks m + (if s.currentPlayer = m then 1 else 0) := by
  have h0 := landing_nonneg s move hacc
  have h1 := landing_lt s move hacc
  have hemp := landing_empty s move hacc
  obtain ⟨n, hn⟩ := Int.eq_ofNat_of_zero_le h0
  rw [hn] at h1 hemp
  have hlt : n < s.board.length := by
    unfold Model.Sized at hs
    rw [hs]
    exact_mod_cast h1
  rw [cell_natCast, List.getElem?_eq_getElem hlt] at hemp
  have hnone : s.board[n] = none := by simpa using hemp
  unfold Model.marks Model.place
  simp only
  rw [hn, Int.toNat_ofNat, List.count_set _ _ _ _ hlt, hnone]
  by_cases hm : s.currentPlayer = m
  · simp [hm]
  · simp [hm]

theorem constructor_marks (w h : Nat) (m : Mark) : (Model.constructor w h).marks m = 0 := by
  simp [Model.marks, Model.constructor, List.count_replicate]

/-- While `finishedGame` is not set the players have alternated, 🟡 first. -/
theorem reachable_marks (s : Model) (hr : Reachable s) (hf : s.finishedGame = false) :
    (s.marks Mark.yellow = s.marks Mark.red ∧ s.currentPlayer = Mark.yellow) ∨
      (s.marks Mark.yellow = s.marks Mark.red + 1 ∧ s.currentPlayer = Mark.red) := by
  induction hr with
  | fresh w h =>
    left
    exact ⟨by rw [constructor_marks, constructor_marks], rfl⟩
  | step s move hr ih =>
    obtain ⟨hs, _⟩ := reachable_sized_stacked s hr
    cases hacc : s.rejects move
    · rcases play_accepted_cases s move hacc with ⟨_, hst, _⟩ | ⟨_, _, hst, _⟩ |
        ⟨_, _, h3, hst, _⟩ | ⟨_, _, h3, hst, _⟩
      · rw [hst] at hf
        exact Bool.noConfusion hf
      · rw [hst] at hf
        exact Bool.noConfusion hf
      · rw [hst]
        have hy := place_marks s move hs hacc Mark.yellow
        have hred := place_marks s move hs hacc Mark.red
        show ((s.place move).marks Mark.yellow = (s.place move).marks Mark.red ∧
            s.currentPlayer.other = Mark.yellow) ∨
          ((s.place move).marks Mark.yellow = (s.place move).marks Mark.red + 1 ∧
            s.currentPlayer.other = Mark.red)
        rcases ih h3 with ⟨hc, hp⟩ | ⟨hc, hp⟩
        · right
          rw [hp] at hy hred ⊢
          simp only [if_true, reduceCtorEq, if_false, add_zero] at hy hred
          exact ⟨by omega, rfl⟩
        · left
          rw [hp] at hy hred ⊢
          simp only [if_true, reduceCtorEq, if_false, add_zero] at hy hred
          exact ⟨by omega, rfl⟩
      · rw [hst] at hf
        have hf2 : s.finishedGame = false := hf
        rw [h3] at hf2
        exact Bool.noConfusion hf2
    · rw [play_of_rejects s move hacc] at hf ⊢
      exact ih hf

/-- C19: in every reachable state in which `finishedGame` is not set, the
number of 🟡 cells is the number of 🔴 cells or one more, and `currentPlayer` is
🟡 exactly when the two numbers are equal, 🔴 exactly when 🟡 has one more. -/
theorem marks_alternate (s : Model) (hr : Reachable s) (hf : s.finishedGame = false) :
    (s.marks Mark.yellow = s.marks Mark.red ∨ s.marks Mark.yellow = s.marks Mark.red + 1) ∧
      (s.currentPlayer = Mark.yellow ↔ s.marks Mark.yellow = s.marks Mark.red) ∧
      (s.currentPlayer = Mark.red ↔ s.marks Mark.yellow = s.marks Mark.red + 1) := by
  rcases reachable_marks s hr hf with ⟨hc, hp⟩ | ⟨hc, hp⟩
  · refine ⟨Or.inl hc, ⟨fun _ => hc, fun _ => hp⟩, ⟨fun h => ?_, fun h => ?_⟩⟩
    · rw [hp] at h
      exact Mark.noConfusion h
    · omega
  · refine ⟨Or.inr hc, ⟨fun h => ?_, fun h => ?_⟩, ⟨fun _ => hc, fun _ => hp⟩⟩
    · rw [hp] at h
      exact Mark.noConfusion h
    · omega

theorem marks_alternate_witness :
    Reachable threeInRowGame ∧ threeInRowGame.finishedGame = false ∧
      threeInRowGame.marks Mark.yellow = 3 ∧ threeInRowGame.marks Mark.red = 3 ∧
      threeInRowGame.currentPlayer = Mark.yellow ∧
      ((threeInRowGame.marks Mark.yellow = threeInRowGame.marks Mark.red ∨
          threeInRowGame.marks Mark.yellow = threeInRowGame.marks Mark.red + 1) ∧
        (threeInRowGame.currentPlayer = Mark.yellow ↔
          threeInRowGame.marks Mark.yellow = threeInRowGame.marks Mark.red) ∧
        (threeInRowGame.currentPlayer = Mark.red ↔
          threeInRowGame.marks Mark.yellow = threeInRowGame.marks Mark.red + 1)) :=
  ⟨reachable_playAll _ _ (Reachable.fresh 7 7), by decide, by decide, by decide, by decide,
    marks_alternate threeInRowGame (reachable_playAll _ _ (Reachable.fresh 7 7)) (by decide)⟩

end ConnectFour
